import Mathlib

/-
Shallow embedding of `packages/insomnia-app/app/ui/components/wrapper-design.js`
(the `WrapperDesign` React component of the Insomnia API-design tool).

The component wires a code editor, a lint pipeline and a preview pane:
  * `_handleOnChange` debounces edits (500 ms) and commits the edited text
    through the `handleUpdateApiSpec` prop, spreading the `activeApiSpec`
    record captured at edit time;
  * `_reLint` runs the Spectral rule engine on the current contents and
    replaces the `lintMessages` state wholesale with the mapped violations;
  * `componentDidMount` / `componentDidUpdate` trigger `_reLint` on first
    display and whenever the persisted contents string changes;
  * `render` computes the preview document with
    `YAML.parse(contents) || {}` inside a try/catch;
  * `_handleLintClick` resolves a diagnostic's retained range and dispatches
    a selection request; `_handleBreadcrumb` navigates home.

External collaborators (the Spectral engine, the YAML parser, the editor
widget) are modelled as parameters; machine behavior of the event loop
(timers) is modelled as an explicit timed trace.
-/

/-- The spec record handed to the component via props.
Modelled from the spec: the record type lives in `models/api-spec.js`, which
is not under `src/`; the spec names its attributes of interest as a unique
identifier, raw textual contents, and a parent workspace reference. -/
structure ApiSpec where
  _id : String
  parentId : String
  contents : String
deriving Repr, DecidableEq

/-- A zero-based line/character position, as reported by the rule engine. -/
structure Pos where
  line : Nat
  character : Nat
deriving Repr, DecidableEq

/-- A source range `{start, end}` attached to each violation. -/
structure Range where
  start : Pos
  «end» : Pos
deriving Repr, DecidableEq

/-- A violation record returned by `spectral.run`:
`{severity, code, message, range}`. -/
structure Violation where
  severity : Nat
  code : String
  message : String
  range : Range
deriving Repr, DecidableEq

/-- One entry of the component's `lintMessages` state, as built by
`_reLint`: `{type, message, line, _range}`. -/
structure LintMessage where
  type : String
  message : String
  line : Nat
  _range : Range
deriving Repr, DecidableEq

/-- The component's `state` record: `{previewActive, lintMessages}`. -/
structure WrapperState where
  previewActive : Bool
  lintMessages : List LintMessage
deriving Repr, DecidableEq

/-- `_reLint`: submit the contents to the rule engine (`spectral.run`,
passed here as the function `run`); on success replace `lintMessages`
with the mapped violations via `setState`; the `await` is not wrapped in
try/catch, so an engine rejection propagates out (`Except.error`) and
`setState` is never reached. -/
def _reLint (run : String → Except Unit (List Violation)) (contents : String)
    (st : WrapperState) : WrapperState × Except Unit Unit :=
  match run contents with
  | Except.error e => (st, Except.error e)
  | Except.ok results =>
      ({ st with
          lintMessages := results.map (fun r =>
            { type := if r.severity = 0 then "error" else "warning"
              message := r.code ++ " " ++ r.message
              line := r.range.start.line
              _range := r.range }) },
        Except.ok ())

/-- The property names defined on a `WrapperDesign` instance: the class
fields and methods declared in the source file, plus the members inherited
from `React.PureComponent` (`props`, `state`, `setState`, `forceUpdate`,
`context`, `refs`). `setSelection` is not among them. -/
def wrapperDesignProps : List String :=
  ["editor", "debounceTimeout", "state",
   "_setEditorRef", "_handleGenerateConfig", "_handleDebugSpec",
   "_handleTogglePreview", "_handleOnChange", "_handleSetSelection",
   "_handleLintClick", "_reLint", "_handleBreadcrumb",
   "componentDidMount", "componentDidUpdate", "render",
   "props", "setState", "forceUpdate", "context", "refs"]

/-- A selection request `(chStart, chEnd, lineStart, lineEnd)` dispatched to
the editor widget's `setSelection`. -/
structure SelectionCall where
  chStart : Nat
  chEnd : Nat
  lineStart : Nat
  lineEnd : Nat
deriving Repr, DecidableEq

/-- `_handleSetSelection`: if no editor widget is bound (`this.editor` is
null) return without dispatching; otherwise dispatch
`editor.setSelection(chStart, chEnd, lineStart, lineEnd)`. The editor is a
parameter; the result records the dispatched call, if any. -/
def _handleSetSelection (editor : Option Unit)
    (chStart chEnd lineStart lineEnd : Nat) : Option SelectionCall :=
  match editor with
  | none => none
  | some _ => some ⟨chStart, chEnd, lineStart, lineEnd⟩

/-- `_handleLintClick`: destructure `notice._range` into `start`/`end`, then
evaluate `this.setSelection(start.character, end.character, start.line,
end.line)`. Property lookup of `setSelection` on the instance is modelled
against `wrapperDesignProps`; calling an undefined property is a JS
`TypeError`, returned as `Except.error`. On a successful lookup the result
would be the argument tuple passed on. -/
def _handleLintClick (notice : LintMessage) : Except String (Nat × Nat × Nat × Nat) :=
  let start := notice._range.start
  let stop := notice._range.«end»
  if wrapperDesignProps.contains "setSelection" then
    Except.ok (start.character, stop.character, start.line, stop.line)
  else
    Except.error "TypeError: this.setSelection is not a function"

/-- A JavaScript value, as produced by `YAML.parse`. -/
inductive JsVal where
  | null : JsVal
  | bool (b : Bool) : JsVal
  | num (n : Int) : JsVal
  | str (s : String) : JsVal
  | arr (elems : List JsVal) : JsVal
  | obj (fields : List (String × JsVal)) : JsVal

/-- JavaScript truthiness: `null`, `false`, `0` and `""` are falsy; every
array or object is truthy. -/
def truthy : JsVal → Bool
  | JsVal.null => false
  | JsVal.bool b => b
  | JsVal.num n => n != 0
  | JsVal.str s => s != ""
  | JsVal.arr _ => true
  | JsVal.obj _ => true

/-- The preview computation in `render`:
`try { swaggerSpec = YAML.parse(contents) || {}; } catch (err) { swaggerSpec = {}; }`.
The YAML parser is a parameter (`Except.error` models a thrown parse
exception); `x || {}` yields `x` when `x` is truthy and `{}` otherwise. -/
def renderPreview (parse : String → Except Unit JsVal) (contents : String) : JsVal :=
  match parse contents with
  | Except.ok v => if truthy v then v else JsVal.obj []
  | Except.error _ => JsVal.obj []

/-- The YAML parser evaluated at the document `"null"`: the `yaml` package
parses the scalar document `null` successfully to the value `null` (it does
not throw). Used as a concrete instantiation of the parser parameter. -/
def yamlNullParse : String → Except Unit JsVal := fun _ => Except.ok JsVal.null

/-- An activity identifier of the application shell. Modelled from the spec:
the constant `ACTIVITY_HOME` is imported from `activity-bar/activity-bar`,
which is not under `src/`; the spec describes it as the "home breadcrumb
target" of the navigation callbacks. -/
inductive Activity where
  | home : Activity
  | debug : Activity
  | design : Activity
deriving Repr, DecidableEq

/-- The home-activity constant imported by the component. -/
def ACTIVITY_HOME : Activity := Activity.home

/-- `_handleBreadcrumb(index)`: calls
`this.props.wrapperProps.handleSetActiveActivity(ACTIVITY_HOME)`; the result
is the activity passed to that callback. The `index` parameter is bound but
never read. -/
def _handleBreadcrumb (_index : Nat) : Activity :=
  ACTIVITY_HOME

/-- C2: after a successful `_reLint` run, the stored diagnostic list has one
entry per violation, in the engine's order; entry `i` is the mapping of
violation `i` to `{type: "error" iff severity = 0 else "warning", message:
code ++ " " ++ message, line: range.start.line, _range: range}`; the
previous diagnostic list does not influence the result (wholesale
replacement) and the rest of the state is untouched. -/
theorem C2_relint_mapping (run : String → Except Unit (List Violation))
    (contents : String) (st : WrapperState) (results : List Violation)
    (h : run contents = Except.ok results) :
    ((_reLint run contents st).1.lintMessages.length = results.length) ∧
    (∀ i (hi : i < results.length)
        (hj : i < (_reLint run contents st).1.lintMessages.length),
      (_reLint run contents st).1.lintMessages.get ⟨i, hj⟩ =
        { type := if (results.get ⟨i, hi⟩).severity = 0 then "error" else "warning"
          message := (results.get ⟨i, hi⟩).code ++ " " ++ (results.get ⟨i, hi⟩).message
          line := (results.get ⟨i, hi⟩).range.start.line
          _range := (results.get ⟨i, hi⟩).range }) ∧
    ((_reLint run contents st).1.previewActive = st.previewActive) := by
  refine ⟨?_, fun i hi hj => ?_, ?_⟩
  · simp [_reLint, h]
  · simp [_reLint, h, List.get_eq_getElem, List.getElem_map]
  · simp [_reLint, h]

/-- A two-violation engine output used to instantiate C2 concretely. -/
def vioPair : List Violation :=
  [{ severity := 0, code := "oas3-schema", message := "bad schema",
     range := ⟨⟨2, 0⟩, ⟨2, 10⟩⟩ },
   { severity := 2, code := "info-contact", message := "missing contact",
     range := ⟨⟨0, 1⟩, ⟨0, 9⟩⟩ }]

/-- A prior state with a stale diagnostic, to exhibit wholesale replacement. -/
def stPrior : WrapperState :=
  { previewActive := true,
    lintMessages := [{ type := "warning", message := "old stale", line := 9,
                       _range := ⟨⟨9, 0⟩, ⟨9, 1⟩⟩ }] }

theorem C2_relint_mapping_witness :
    (_reLint (fun _ => Except.ok vioPair) "openapi: 3.0.0" stPrior).1.lintMessages.get
        ⟨1, by decide⟩ =
      { type := "warning", message := "info-contact missing contact", line := 0,
        _range := ⟨⟨0, 1⟩, ⟨0, 9⟩⟩ } :=
  (C2_relint_mapping (fun _ => Except.ok vioPair) "openapi: 3.0.0" stPrior vioPair
      rfl).2.1 1 (by decide) (by decide)

/-- C7: when the rule engine rejects, `_reLint` leaves the state (in
particular `lintMessages`) exactly as it was and lets the rejection
propagate out of the component uncaught. -/
theorem C7_relint_failure (run : String → Except Unit (List Violation))
    (contents : String) (st : WrapperState) (e : Unit)
    (h : run contents = Except.error e) :
    _reLint run contents st = (st, Except.error e) := by
  simp [_reLint, h]

theorem C7_relint_failure_witness :
    _reLint (fun _ => Except.error ()) "openapi: 3.0.0" stPrior =
      (stPrior, Except.error ()) :=
  C7_relint_failure (fun _ => Except.error ()) "openapi: 3.0.0" stPrior () rfl

/-- C3: evaluating the code at the diagnostic of the spec's example — retained
range `{start: {line: 3, character: 5}, end: {line: 4, character: 2}}` — the
click handler does not dispatch a selection request: `this.setSelection` is
not a property of the component (the guarded method is named
`_handleSetSelection`), so the call raises a `TypeError` before the editor
is ever consulted. -/
theorem C3_click_type_error :
    _handleLintClick
        { type := "warning", message := "oas3-schema bad", line := 3,
          _range := ⟨⟨3, 5⟩, ⟨4, 2⟩⟩ } =
      Except.error "TypeError: this.setSelection is not a function" := rfl

/-- The guarded selection path the component defines (`_handleSetSelection`)
does behave as the spec describes: with no editor bound nothing is
dispatched, and with an editor bound the request carries the arguments in
the order `(chStart, chEnd, lineStart, lineEnd)`. `_handleLintClick` never
reaches it. -/
theorem handleSetSelection_guarded (chStart chEnd lineStart lineEnd : Nat) :
    _handleSetSelection none chStart chEnd lineStart lineEnd = none ∧
    _handleSetSelection (some ()) chStart chEnd lineStart lineEnd =
      some ⟨chStart, chEnd, lineStart, lineEnd⟩ :=
  ⟨rfl, rfl⟩

/-- C5 counterexample: the document `"null"` parses successfully (the YAML
parser returns the value `null` without throwing), yet the preview computed
by `render` is not that parse result: `YAML.parse(contents) || {}` discards
the falsy value `null` and substitutes the empty object. -/
theorem C5_counterexample :
    yamlNullParse "null" = Except.ok JsVal.null ∧
    renderPreview yamlNullParse "null" ≠ JsVal.null :=
  ⟨rfl, fun h => JsVal.noConfusion h⟩

/-- C5 amended: the preview equals the parse result when parsing succeeds
with a truthy value; when parsing succeeds with a falsy value (null, false,
0, empty string) or throws, the preview is the empty structure; in every
case `renderPreview` is total, so no exception escapes the render path on
account of parsing. -/
theorem C5_preview_amended (parse : String → Except Unit JsVal) (contents : String) :
    (∀ v, parse contents = Except.ok v → truthy v = true →
        renderPreview parse contents = v) ∧
    (∀ v, parse contents = Except.ok v → truthy v = false →
        renderPreview parse contents = JsVal.obj []) ∧
    (∀ e, parse contents = Except.error e →
        renderPreview parse contents = JsVal.obj []) := by
  refine ⟨fun v hv ht => ?_, fun v hv ht => ?_, fun e he => ?_⟩
  · simp [renderPreview, hv, ht]
  · simp [renderPreview, hv, ht]
  · simp [renderPreview, he]

theorem C5_preview_amended_witness :
    renderPreview (fun _ => Except.ok (JsVal.str "3.0.0")) "openapi: 3.0.0" =
      JsVal.str "3.0.0" :=
  (C5_preview_amended (fun _ => Except.ok (JsVal.str "3.0.0"))
      "openapi: 3.0.0").1 (JsVal.str "3.0.0") rfl rfl

/-- C10: the breadcrumb click handler ignores its index argument and always
requests the home activity: every crumb navigates to the home view. -/
theorem C10_breadcrumb_home (i j : Nat) :
    _handleBreadcrumb i = ACTIVITY_HOME ∧ _handleBreadcrumb i = _handleBreadcrumb j :=
  ⟨rfl, rfl⟩

/-- The debounce quiet interval of `_handleOnChange`: `setTimeout(..., 500)`. -/
def DEBOUNCE_MS : Nat := 500

/-- The record the debounce timer passes to `handleUpdateApiSpec` when it
fires: `{ ...activeApiSpec, contents: v }` — the spread of the captured
record with the contents field overridden. -/
def commitOfEdit (activeApiSpec : ApiSpec) (v : String) : ApiSpec :=
  { activeApiSpec with contents := v }

/-- An event on the component's event loop:
  * `edit v` — the editor fires `onChange`, invoking `_handleOnChange(v)`;
  * `propsUpdate s` — the parent re-renders the component with a new
    `activeApiSpec` record in its props;
  * `unmount` — the component is torn down. -/
inductive Event where
  | edit (v : String) : Event
  | propsUpdate (s : ApiSpec) : Event
  | unmount : Event

/-- The run-time state relevant to the debounced commit:
  * `props` — the current `activeApiSpec` visible through `this.props`;
  * `pending` — the live `debounceTimeout` timer, if any: its fire deadline
    together with the `activeApiSpec` and text captured by the scheduled
    closure;
  * `commits` — the calls made to `handleUpdateApiSpec` so far, each with
    its fire time;
  * `unmountTime` — when the component was torn down, if it was. -/
structure DebounceState where
  props : ApiSpec
  pending : Option (Nat × ApiSpec × String)
  commits : List (Nat × ApiSpec)
  unmountTime : Option Nat
deriving Repr, DecidableEq

/-- Event-loop timer delivery: at time `t`, a pending timer whose deadline
has passed fires, appending its commit and clearing `debounceTimeout`. -/
def fireIfDue (t : Nat) (st : DebounceState) : DebounceState :=
  match st.pending with
  | some (deadline, s, v) =>
      if deadline ≤ t then
        { st with pending := none,
                  commits := st.commits ++ [(deadline, commitOfEdit s v)] }
      else st
  | none => st

/-- `_handleOnChange(v)` at time `t`: reads `activeApiSpec` out of the
current props, then `clearTimeout(this.debounceTimeout)` discards any
pending schedule and `setTimeout(..., 500)` schedules a commit of the
captured record and text at `t + 500`. -/
def _handleOnChange (t : Nat) (activeApiSpec : ApiSpec) (v : String)
    (st : DebounceState) : DebounceState :=
  { st with pending := some (t + DEBOUNCE_MS, activeApiSpec, v) }

/-- One event-loop step at time `t`: any due timer fires first, then the
event is handled. The source defines no `componentWillUnmount`, so teardown
does not touch `debounceTimeout` — `unmount` only records the time. -/
def stepE (st : DebounceState) (te : Nat × Event) : DebounceState :=
  let st' := fireIfDue te.1 st
  match te.2 with
  | Event.edit v => _handleOnChange te.1 st'.props v st'
  | Event.propsUpdate s => { st' with props := s }
  | Event.unmount => { st' with unmountTime := some te.1 }

/-- After the last event, time passes beyond every deadline: a still-pending
timer fires. -/
def flush (st : DebounceState) : DebounceState :=
  match st.pending with
  | some (deadline, s, v) =>
      { st with pending := none,
                commits := st.commits ++ [(deadline, commitOfEdit s v)] }
  | none => st

/-- The component as mounted: current props record, no timer, no commits. -/
def initState (spec0 : ApiSpec) : DebounceState :=
  { props := spec0, pending := none, commits := [], unmountTime := none }

/-- Run a chronological trace of events from mount, then let all remaining
timers fire. -/
def runTrace (spec0 : ApiSpec) (evts : List (Nat × Event)) : DebounceState :=
  flush (evts.foldl stepE (initState spec0))

/-- The last element of a list, or the supplied default for `[]`. -/
def lastD {α : Type} : α → List α → α
  | d, [] => d
  | _, x :: xs => lastD x xs

/-- Texts of the edit events of a trace. -/
def editTexts (evts : List (Nat × Event)) : List String :=
  evts.filterMap (fun te =>
    match te.2 with
    | Event.edit v => some v
    | _ => none)

/-- Records carried by the props-update events of a trace. -/
def propsSpecs (evts : List (Nat × Event)) : List ApiSpec :=
  evts.filterMap (fun te =>
    match te.2 with
    | Event.propsUpdate s => some s
    | _ => none)

/-- Frame invariant for the debounce machine: the current props record, the
record/text captured by any pending timer, and every commit made so far all
come from the given pools `S` (spec records seen in props) and `V` (edited
texts), and every commit is a spread-with-new-contents of such a pair. -/
def FrameOK (S : List ApiSpec) (V : List String) (st : DebounceState) : Prop :=
  st.props ∈ S ∧
  (∀ c ∈ st.commits, ∃ s v, s ∈ S ∧ v ∈ V ∧ c.2 = commitOfEdit s v) ∧
  (∀ d s v, st.pending = some (d, s, v) → s ∈ S ∧ v ∈ V)


lemma fireIfDue_frameOK (S : List ApiSpec) (V : List String) (t : Nat)
    (st : DebounceState) (h : FrameOK S V st) : FrameOK S V (fireIfDue t st) := by
  obtain ⟨props, pending, commits, u⟩ := st
  obtain ⟨hprops, hc, hp⟩ := h
  cases pending with
  | none => exact ⟨hprops, hc, hp⟩
  | some p =>
      obtain ⟨d, s, v⟩ := p
      obtain ⟨hs, hv⟩ := hp d s v rfl
      by_cases hle : d ≤ t
      · have heq : fireIfDue t ⟨props, some (d, s, v), commits, u⟩ =
            ⟨props, none, commits ++ [(d, commitOfEdit s v)], u⟩ := by
          simp [fireIfDue, hle]
        rw [heq]
        refine ⟨hprops, ?_, ?_⟩
        · intro c hcm
          rcases List.mem_append.mp hcm with hm | hm
          · exact hc c hm
          · rcases List.mem_singleton.mp hm with rfl
            exact ⟨s, v, hs, hv, rfl⟩
        · intro d' s' v' hpm
          cases hpm
      · have heq : fireIfDue t ⟨props, some (d, s, v), commits, u⟩ =
            ⟨props, some (d, s, v), commits, u⟩ := by
          simp [fireIfDue, hle]
        rw [heq]
        exact ⟨hprops, hc, hp⟩

lemma stepE_frameOK (S : List ApiSpec) (V : List String) (st : DebounceState)
    (te : Nat × Event)
    (hev : ∀ v, te.2 = Event.edit v → v ∈ V)
    (hes : ∀ s, te.2 = Event.propsUpdate s → s ∈ S)
    (h : FrameOK S V st) : FrameOK S V (stepE st te) := by
  obtain ⟨t, e⟩ := te
  have h' := fireIfDue_frameOK S V t st h
  obtain ⟨hprops, hc, hp⟩ := h'
  cases e with
  | edit v =>
      have heq : stepE st (t, Event.edit v) =
          { fireIfDue t st with
              pending := some (t + DEBOUNCE_MS, (fireIfDue t st).props, v) } := rfl
      rw [heq]
      refine ⟨hprops, hc, ?_⟩
      intro d' s' v' hpm
      simp only [Option.some.injEq, Prod.mk.injEq] at hpm
      obtain ⟨_, hs, hv⟩ := hpm
      exact ⟨hs ▸ hprops, hv ▸ hev v rfl⟩
  | propsUpdate s =>
      have heq : stepE st (t, Event.propsUpdate s) =
          { fireIfDue t st with props := s } := rfl
      rw [heq]
      exact ⟨hes s rfl, hc, hp⟩
  | unmount =>
      have heq : stepE st (t, Event.unmount) =
          { fireIfDue t st with unmountTime := some t } := rfl
      rw [heq]
      exact ⟨hprops, hc, hp⟩

lemma foldl_frameOK (S : List ApiSpec) (V : List String)
    (evts : List (Nat × Event)) :
    ∀ st : DebounceState,
      (∀ te ∈ evts, ∀ v, te.2 = Event.edit v → v ∈ V) →
      (∀ te ∈ evts, ∀ s, te.2 = Event.propsUpdate s → s ∈ S) →
      FrameOK S V st → FrameOK S V (evts.foldl stepE st) := by
  induction evts with
  | nil => intro st _ _ h; exact h
  | cons te rest ih =>
      intro st hev hes h
      rw [List.foldl_cons]
      exact ih (stepE st te)
        (fun te' hm => hev te' (List.mem_cons_of_mem te hm))
        (fun te' hm => hes te' (List.mem_cons_of_mem te hm))
        (stepE_frameOK S V st te (hev te (List.mem_cons_self te rest))
          (hes te (List.mem_cons_self te rest)) h)

lemma flush_frameOK (S : List ApiSpec) (V : List String) (st : DebounceState)
    (h : FrameOK S V st) : FrameOK S V (flush st) := by
  obtain ⟨props, pending, commits, u⟩ := st
  obtain ⟨hprops, hc, hp⟩ := h
  cases pending with
  | none => exact ⟨hprops, hc, hp⟩
  | some p =>
      obtain ⟨d, s, v⟩ := p
      obtain ⟨hs, hv⟩ := hp d s v rfl
      have heq : flush ⟨props, some (d, s, v), commits, u⟩ =
          ⟨props, none, commits ++ [(d, commitOfEdit s v)], u⟩ := rfl
      rw [heq]
      refine ⟨hprops, ?_, ?_⟩
      · intro c hcm
        rcases List.mem_append.mp hcm with hm | hm
        · exact hc c hm
        · rcases List.mem_singleton.mp hm with rfl
          exact ⟨s, v, hs, hv, rfl⟩
      · intro d' s' v' hpm
        cases hpm

/-- Processing a within-window chain of further edits from a state whose
timer was scheduled by an edit at time `t`: each edit arrives strictly
before the pending deadline, so the timer never fires and is merely
rescheduled; at the end the pending timer belongs to the last edit and no
commit has been added. -/
lemma editsChainFold (rest : List (Nat × String)) :
    ∀ (c : List (Nat × ApiSpec)) (u : Option Nat) (t : Nat) (v : String)
      (props : ApiSpec),
      List.Chain (fun a b => b.1 < a.1 + DEBOUNCE_MS) (t, v) rest →
      (rest.map (fun e => (e.1, Event.edit e.2))).foldl stepE
          { props := props, pending := some (t + DEBOUNCE_MS, props, v),
            commits := c, unmountTime := u } =
        { props := props,
          pending := some ((lastD (t, v) rest).1 + DEBOUNCE_MS, props,
            (lastD (t, v) rest).2),
          commits := c, unmountTime := u } := by
  induction rest with
  | nil => intro c u t v props _; rfl
  | cons e rest ih =>
      intro c u t v props hchain
      obtain ⟨t', v'⟩ := e
      rw [List.chain_cons] at hchain
      obtain ⟨hlt, hchain'⟩ := hchain
      have hnot : ¬ (t + DEBOUNCE_MS ≤ t') := Nat.not_le.mpr hlt
      have hstep : stepE
          { props := props, pending := some (t + DEBOUNCE_MS, props, v),
            commits := c, unmountTime := u } (t', Event.edit v') =
          { props := props, pending := some (t' + DEBOUNCE_MS, props, v'),
            commits := c, unmountTime := u } := by
        simp [stepE, fireIfDue, _handleOnChange, hnot]
      rw [List.map_cons, List.foldl_cons, hstep]
      exact ih c u t' v' props hchain'

/-- C1: for a nonempty sequence of `_handleOnChange` calls in which every
call arrives less than 500 time units after the previous one (one debounce
window), run from mount with no pending commit: exactly one call to
`handleUpdateApiSpec` occurs, 500 units after the last edit, and the
contents it commits are the text of the last edit — every earlier edit's
scheduled commit was cancelled by its successor. -/
theorem C1_debounce_single_commit (spec0 : ApiSpec) (t₀ : Nat) (v₀ : String)
    (rest : List (Nat × String))
    (hchain : List.Chain (fun a b => b.1 < a.1 + DEBOUNCE_MS) (t₀, v₀) rest) :
    (runTrace spec0
        (((t₀, v₀) :: rest).map (fun e => (e.1, Event.edit e.2)))).commits =
      [((lastD (t₀, v₀) rest).1 + DEBOUNCE_MS,
        { spec0 with contents := (lastD (t₀, v₀) rest).2 })] := by
  have h0 : stepE (initState spec0) (t₀, Event.edit v₀) =
      { props := spec0, pending := some (t₀ + DEBOUNCE_MS, spec0, v₀),
        commits := [], unmountTime := none } := rfl
  rw [runTrace, List.map_cons, List.foldl_cons, h0,
    editsChainFold rest [] none t₀ v₀ spec0 hchain]
  rfl

theorem C1_debounce_single_commit_witness :
    (runTrace { _id := "spc_1", parentId := "wrk_1", contents := "a" }
        [(0, Event.edit "b"), (100, Event.edit "bc"), (300, Event.edit "bcd")]).commits =
      [(800, { _id := "spc_1", parentId := "wrk_1", contents := "bcd" })] :=
  C1_debounce_single_commit
    { _id := "spc_1", parentId := "wrk_1", contents := "a" }
    0 "b" [(100, "bc"), (300, "bcd")]
    (List.Chain.cons (by decide) (List.Chain.cons (by decide) List.Chain.nil))

/-- C6: evaluating the code at a teardown during the debounce window. An
edit at time 0 schedules a commit for time 500; the component is unmounted
at time 100; because the source defines no `componentWillUnmount`, nothing
cancels `debounceTimeout`, and the commit fires at time 500 — after
teardown (100 < 500). The claim says the pending timer is cancelled and no
commit ever fires after teardown; the code does the opposite. -/
theorem C6_unmount_no_cleanup :
    (runTrace { _id := "spc_1", parentId := "wrk_1", contents := "a" }
        [(0, Event.edit "b"), (100, Event.unmount)]).unmountTime = some 100 ∧
    (runTrace { _id := "spc_1", parentId := "wrk_1", contents := "a" }
        [(0, Event.edit "b"), (100, Event.unmount)]).commits =
      [(500, { _id := "spc_1", parentId := "wrk_1", contents := "b" })] ∧
    (100 : Nat) < 500 := by
  decide

/-- C8: every record a fired debounce commit passes to `handleUpdateApiSpec`
agrees with some spec record the component's props held (the mounted record
or a later props update) on every field except `contents`, whose value is
the text of some edit of the trace — the spread alters nothing else. -/
theorem C8_commit_frame (spec0 : ApiSpec) (evts : List (Nat × Event))
    (c : Nat × ApiSpec) (hc : c ∈ (runTrace spec0 evts).commits) :
    ∃ s v, s ∈ spec0 :: propsSpecs evts ∧ v ∈ editTexts evts ∧
      c.2._id = s._id ∧ c.2.parentId = s.parentId ∧ c.2.contents = v := by
  have hinit : FrameOK (spec0 :: propsSpecs evts) (editTexts evts) (initState spec0) := by
    refine ⟨List.mem_cons_self spec0 _, ?_, ?_⟩
    · intro c hcm; cases hcm
    · intro d s v hpm; cases hpm
  have hev : ∀ te ∈ evts, ∀ v, te.2 = Event.edit v → v ∈ editTexts evts := by
    intro te hm v hv
    refine List.mem_filterMap.mpr ⟨te, hm, ?_⟩
    rw [hv]
  have hes : ∀ te ∈ evts, ∀ s, te.2 = Event.propsUpdate s →
      s ∈ spec0 :: propsSpecs evts := by
    intro te hm s hs
    refine List.mem_cons_of_mem spec0 (List.mem_filterMap.mpr ⟨te, hm, ?_⟩)
    rw [hs]
  have hfinal := flush_frameOK _ _ _
    (foldl_frameOK _ _ evts (initState spec0) hev hes hinit)
  obtain ⟨s, v, hs, hv, heq⟩ := hfinal.2.1 c hc
  exact ⟨s, v, hs, hv, by simp [heq, commitOfEdit], by simp [heq, commitOfEdit],
    by simp [heq, commitOfEdit]⟩

theorem C8_commit_frame_witness :
    ∃ s v,
      s ∈ ({ _id := "spc_1", parentId := "wrk_1", contents := "a" } : ApiSpec) ::
        propsSpecs [(0, Event.edit "b")] ∧
      v ∈ editTexts [(0, Event.edit "b")] ∧
      ((500 : Nat), ({ _id := "spc_1", parentId := "wrk_1", contents := "b" } : ApiSpec)).2._id = s._id ∧
      ((500 : Nat), ({ _id := "spc_1", parentId := "wrk_1", contents := "b" } : ApiSpec)).2.parentId = s.parentId ∧
      ((500 : Nat), ({ _id := "spc_1", parentId := "wrk_1", contents := "b" } : ApiSpec)).2.contents = v :=
  C8_commit_frame { _id := "spc_1", parentId := "wrk_1", contents := "a" }
    [(0, Event.edit "b")]
    (500, { _id := "spc_1", parentId := "wrk_1", contents := "b" })
    (by decide)

/-- C9: the closure scheduled by `_handleOnChange` captures `activeApiSpec`
at edit time. If the props record is replaced during the 500-unit window
(here at `t₁`, before the deadline), the fired commit still spreads the
record captured at the edit: its non-contents fields are the stale `spec0`
values, even though the props held `specB` when the timer fired. -/
theorem C9_stale_capture (spec0 specB : ApiSpec) (t₀ t₁ : Nat) (v : String)
    (h01 : t₀ ≤ t₁) (h1 : t₁ < t₀ + DEBOUNCE_MS) :
    (runTrace spec0 [(t₀, Event.edit v), (t₁, Event.propsUpdate specB)]).commits =
      [(t₀ + DEBOUNCE_MS, { spec0 with contents := v })] ∧
    (runTrace spec0 [(t₀, Event.edit v), (t₁, Event.propsUpdate specB)]).props = specB := by
  have hnot : ¬ (t₀ + DEBOUNCE_MS ≤ t₁) := Nat.not_le.mpr h1
  constructor <;>
    simp [runTrace, stepE, fireIfDue, _handleOnChange, flush, initState,
      commitOfEdit, hnot]

theorem C9_stale_capture_witness :
    (runTrace { _id := "spc_1", parentId := "wrk_1", contents := "a" }
        [(0, Event.edit "b"),
         (100, Event.propsUpdate { _id := "spc_1", parentId := "wrk_2", contents := "a" })]).commits =
      [(500, { _id := "spc_1", parentId := "wrk_1", contents := "b" })] :=
  (C9_stale_capture { _id := "spc_1", parentId := "wrk_1", contents := "a" }
    { _id := "spc_1", parentId := "wrk_2", contents := "a" }
    0 100 "b" (by decide) (by decide)).1

/-- `componentDidUpdate` replayed over a sequence of re-renders: given the
contents at the previous render and the contents of each successive render,
collect the contents `_reLint` is invoked with — the body runs `_reLint`
exactly when `activeApiSpec.contents !== prevProps.wrapperProps.activeApiSpec.contents`,
and `prevProps` always advances to the current render either way. -/
def didUpdateRuns : String → List String → List String
  | _, [] => []
  | prev, c :: rest => (if c ≠ prev then [c] else []) ++ didUpdateRuns c rest

/-- The contents submitted to the lint pipeline over the component's life:
`componentDidMount` invokes `_reLint` once with the initial contents, then
`componentDidUpdate` contributes per re-render as above. -/
def lintRuns (initContents : String) (renders : List String) : List String :=
  initContents :: didUpdateRuns initContents renders

lemma didUpdateRuns_append (renders : List String) (c : String) :
    ∀ prev, didUpdateRuns prev (renders ++ [c]) =
      didUpdateRuns prev renders ++ (if c ≠ lastD prev renders then [c] else []) := by
  induction renders with
  | nil => intro prev; simp [didUpdateRuns, lastD]
  | cons r rs ih =>
      intro prev
      simp [didUpdateRuns, lastD, ih r, List.append_assoc]

/-- C4: on first display the lint pipeline runs exactly once, with the
initial contents (a life with no re-renders lints exactly once); and
extending a life by one more re-render with contents `c` adds exactly one
more lint run — carrying `c` — when `c` differs (string inequality) from
the contents at the immediately prior render, and adds none when it does
not. -/
theorem C4_lint_triggers (initContents c : String) (renders : List String) :
    lintRuns initContents [] = [initContents] ∧
    (lintRuns initContents renders).head? = some initContents ∧
    lintRuns initContents (renders ++ [c]) =
      lintRuns initContents renders ++
        (if c ≠ lastD initContents renders then [c] else []) := by
  refine ⟨rfl, rfl, ?_⟩
  simp [lintRuns, didUpdateRuns_append renders c initContents]
